import Mathlib

/-
Verification of the zoom-downloader pipeline (`src/main.py`) against its
natural-language specification.  The Python program is shallowly embedded:
the network-capture predicate, the dedup dict, the timeline label parser,
the curl command construction and the download/validation loop become pure
Lean functions; the external world (browser, curl, filesystem) is passed in
as explicit inputs (request lists, cookie lists, a transfer oracle).
-/

namespace Zoom

/-- One captured network request, the dict
`{"url": request.url, "headers": headers}` built by `handle_request`
(`src/main.py` lines 57-67).  Python's header dict is modelled as an
association list of (lower-cased name, value) pairs. -/
structure CapturedRequest where
  url : String
  headers : List (String × String)
deriving DecidableEq, Repr

/-- Contiguous-substring test on character lists; embeds Python's
`pat in s` for strings. -/
def hasSubL (pat : List Char) : List Char → Bool
  | [] => pat.isEmpty
  | s@(_ :: t) => pat.isPrefixOf s || hasSubL pat t

/-- Python's `pat in s` on `String`. -/
def strHasSub (s pat : String) : Bool := hasSubL pat.data s.data

/-- `s.endswith(pat)`; used only to state the spec-side predicate of the
claim about the capture filter (the code itself uses containment). -/
def strEndsWith (s pat : String) : Bool := pat.data.isSuffixOf s.data

/-- The retention predicate inside `handle_request` (`src/main.py` line 58):
`"ssrweb.zoom.us" in request.url and ".mp4" in request.url`. -/
def capturePred (url : String) : Bool :=
  strHasSub url "ssrweb.zoom.us" && strHasSub url ".mp4"

/-- The capture accumulator: `handle_request` appends `{url, headers}` to
`video_requests` for every outbound request satisfying `capturePred`
(`src/main.py` lines 38, 57-67), in observation order. -/
def video_requests (outbound : List CapturedRequest) : List CapturedRequest :=
  outbound.foldl
    (fun acc r => if capturePred r.url then acc ++ [⟨r.url, r.headers⟩] else acc) []

/-- Python-dict assignment `d[k] = v` on an association list: replace the
value at an existing key in place (keeping the key's position), otherwise
append the new pair at the end — exactly CPython's insertion-order
semantics for `unique_requests[url] = req`. -/
def dictUpd {α : Type} : List (String × α) → String → α → List (String × α)
  | [], k, v => [(k, v)]
  | p :: rest, k, v => if p.1 == k then (k, v) :: rest else p :: dictUpd rest k v

/-- The key sequence of a Python dict in iteration order. -/
def dictKeys {α : Type} (d : List (String × α)) : List String := d.map Prod.fst

/-- Python-dict lookup `d[k]` / `d.get(k)` on an association list. -/
def dictFind {α : Type} : List (String × α) → String → Option α
  | [], _ => none
  | p :: rest, k => if p.1 == k then some p.2 else dictFind rest k

/-- The marker filter of the dedup loop (`src/main.py` line 151):
`"_avo_" in url or "_as_" in url`. -/
def hasMarker (url : String) : Bool := strHasSub url "_avo_" || strHasSub url "_as_"

/-- The dedup loop (`src/main.py` lines 147-152): iterate the captured
requests in observation order and perform `unique_requests[url] = req`
for every marker-bearing URL, starting from the empty dict. -/
def unique_requests (reqs : List CapturedRequest) : List (String × CapturedRequest) :=
  reqs.foldl (fun d req => if hasMarker req.url then dictUpd d req.url req else d) []

/-- First-occurrence deduplication with an accumulator of already-seen
keys; used to state the insertion order of the dedup dict. -/
def dedupFirstAux (seen : List String) : List String → List String
  | [] => []
  | u :: rest =>
    if u ∈ seen then dedupFirstAux seen rest else u :: dedupFirstAux (u :: seen) rest

/-- `optOr a b` is `a` unless it is `none`, else `b` (first-match
combination of two option values). -/
def optOr {α : Type} (a b : Option α) : Option α :=
  match a with
  | some x => some x
  | none => b

/-- Strip `p` from the front of `s`, returning the remainder on success. -/
def stripPre : List Char → List Char → Option (List Char)
  | [], s => some s
  | _ :: _, [] => none
  | p :: ps, c :: cs => if p == c then stripPre ps cs else none

/-- Try to match the regex `marker(\d+x\d+)\.mp4` at the very start of `s`
(`marker` taken literally) and return the captured `\d+x\d+` token.
Because a digit is never `x` or `.`, the greedy `\d+` of Python's `re`
is exactly a maximal digit run here, so no backtracking is needed. -/
def matchResAt (marker : List Char) (s : List Char) : Option (List Char) :=
  match stripPre marker s with
  | none => none
  | some r1 =>
    let d1 := r1.takeWhile Char.isDigit
    let r2 := r1.dropWhile Char.isDigit
    if d1.isEmpty then none
    else
      match r2 with
      | 'x' :: r3 =>
        let d2 := r3.takeWhile Char.isDigit
        let r4 := r3.dropWhile Char.isDigit
        if d2.isEmpty then none
        else if (".mp4".data).isPrefixOf r4 then some (d1 ++ 'x' :: d2) else none
      | _ => none

/-- `re.search` for `marker(\d+x\d+)\.mp4`: scan positions left to right
and return the leftmost captured group (`src/main.py` lines 174, 178). -/
def searchResToken (marker : List Char) : List Char → Option (List Char)
  | [] => matchResAt marker []
  | s@(_ :: t) =>
    match matchResAt marker s with
    | some r => some r
    | none => searchResToken marker t

/-- `match.group(1) if match else "unknown"` for the resolution regex of
one branch of the download loop (`src/main.py` lines 173-180). -/
def resolutionFor (marker : String) (url : String) : String :=
  match searchResToken marker.data url.data with
  | some r => String.mk r
  | none => "unknown"

/-- The filename suffix computation of the download loop
(`src/main.py` lines 172-182): `_avo_` wins over `_as_` because of the
`if / elif` chain; a URL with neither marker falls to `"_unknown"`. -/
def computeSuffix (url : String) : String :=
  if strHasSub url "_avo_" then "_face_" ++ resolutionFor "_avo_" url
  else if strHasSub url "_as_" then "_screen_" ++ resolutionFor "_as_" url
  else "_unknown"

/-- `filename = f"{output_dir}/{base_filename}{suffix}.mp4"`
(`src/main.py` line 184). -/
def filenameFor (outdir base url : String) : String :=
  outdir ++ "/" ++ base ++ computeSuffix url ++ ".mp4"

/-- One sharing-timeline entry, the object pushed by the page script
(`src/main.py` lines 126-130).  `action` is the captured group 1 text
(`"Sharing Started"` or `"Sharing Stopped"`). -/
structure SharingEvent where
  action : String
  time : String
  seconds : Nat
deriving DecidableEq, Repr

/-- `parseInt` on a digit run. -/
def parseDigits (l : List Char) : Nat :=
  l.foldl (fun n c => 10 * n + (c.toNat - 48)) 0

/-- `String(n).padStart(2, '0')` (`src/main.py` lines 123-125). -/
def padTwo (n : Nat) : String :=
  let s := toString n
  if s.length < 2 then "0" ++ s else s

/-- Match the tail `,(\d+) hours (\d+) minutes (\d+) seconds` of the
timeline regex at the start of `r`, pairing it with the already-matched
group-1 text `a`.  As in `matchResAt`, each greedy `\d+` is a maximal
digit run (the following literal starts with a blank, never a digit). -/
def matchTimes (a : String) (r : List Char) : Option (String × Nat × Nat × Nat) :=
  match r with
  | ',' :: r1 =>
    if (r1.takeWhile Char.isDigit).isEmpty then none
    else
      match stripPre " hours ".data (r1.dropWhile Char.isDigit) with
      | none => none
      | some r2 =>
        if (r2.takeWhile Char.isDigit).isEmpty then none
        else
          match stripPre " minutes ".data (r2.dropWhile Char.isDigit) with
          | none => none
          | some r3 =>
            if (r3.takeWhile Char.isDigit).isEmpty then none
            else if (" seconds".data).isPrefixOf (r3.dropWhile Char.isDigit) then
              some (a, parseDigits (r1.takeWhile Char.isDigit),
                parseDigits (r2.takeWhile Char.isDigit),
                parseDigits (r3.takeWhile Char.isDigit))
            else none
  | _ => none

/-- Try the timeline regex
`(Sharing (?:Started|Stopped)),(\d+) hours (\d+) minutes (\d+) seconds`
at the very start of `s`.  `Started` is tried before `Stopped`, as the
alternation does; the two alternatives differ at their third character,
so at most one can match and no backtracking arises. -/
def matchSharingAt (s : List Char) : Option (String × Nat × Nat × Nat) :=
  match stripPre "Sharing ".data s with
  | none => none
  | some r1 =>
    match stripPre "Started".data r1 with
    | some r2 => matchTimes "Sharing Started" r2
    | none =>
      match stripPre "Stopped".data r1 with
      | some r2 => matchTimes "Sharing Stopped" r2
      | none => none

/-- `label.match(regex)` (search semantics): leftmost position where the
timeline regex matches (`src/main.py` line 116). -/
def searchSharing : List Char → Option (String × Nat × Nat × Nat)
  | [] => matchSharingAt []
  | s@(_ :: t) =>
    match matchSharingAt s with
    | some r => some r
    | none => searchSharing t

/-- Build the pushed timeline object from the matched groups
(`src/main.py` lines 118-130). -/
def mkEvent (t : String × Nat × Nat × Nat) : SharingEvent :=
  { action := t.1
    time := padTwo t.2.1 ++ ":" ++ padTwo t.2.2.1 ++ ":" ++ padTwo t.2.2.2
    seconds := t.2.1 * 3600 + t.2.2.1 * 60 + t.2.2.2 }

/-- Process one marker's `aria-label`: the `includes` pre-check followed
by the regex match and the push (`src/main.py` lines 113-131). -/
def parseSharingLabel (label : String) : Option SharingEvent :=
  if strHasSub label "Sharing Started" || strHasSub label "Sharing Stopped" then
    (searchSharing label.data).map mkEvent
  else none

/-- The page script's `markers.forEach(...)` over the marker labels in
document order (`src/main.py` lines 109-135): the resulting `timeline`
array, always a list (never null). -/
def sharing_timeline (labels : List String) : List SharingEvent :=
  labels.filterMap parseSharingLabel

/-- What the caller can observe of one `curl` run: its exit status plus
the state of the destination file afterwards (`src/main.py` lines
206-219). -/
structure TransferOutcome where
  returncode : Nat
  fileExists : Bool
  sizeBytes : Nat
deriving DecidableEq, Repr

/-- The `curl` argument list built for one resource
(`src/main.py` lines 189-205). -/
structure CurlCmd where
  out : String
  accept : String
  acceptLanguage : String
  referer : String
  userAgent : String
  cookie : String
  url : String
deriving DecidableEq, Repr

/-- `headers.get(k, d)` on the modelled header dict. -/
def headerGetD (hs : List (String × String)) (k d : String) : String :=
  match dictFind hs k with
  | some v => v
  | none => d

/-- `cookie_str = "; ".join(f"{c['name']}={c['value']}" for c in cookies)`
(`src/main.py` line 163). -/
def cookie_str (cookies : List (String × String)) : String :=
  String.intercalate "; " (cookies.map (fun c => c.1 ++ "=" ++ c.2))

/-- Assemble the `curl` invocation for one resource
(`src/main.py` lines 189-205), with the literal header fallbacks. -/
def buildCurl (cookieStr fname url : String) (hs : List (String × String)) : CurlCmd :=
  { out := fname
    accept := headerGetD hs "accept" "*/*"
    acceptLanguage := headerGetD hs "accept-language" "ja-JP"
    referer := headerGetD hs "referer" "https://us06web.zoom.us/"
    userAgent := headerGetD hs "user-agent" ""
    cookie := cookieStr
    url := url }

/-- One iteration of the download loop after the `curl` invocation
(`src/main.py` lines 187-223): the `try` block is modelled by an
`Except`-valued transfer oracle (`Except.error` = a raised exception,
caught and logged), then `returncode == 0`, file existence and the size
floor are checked in order.  The code compares
`st_size / (1024 * 1024) > 0.1` in floating point; for an integer byte
count that comparison holds exactly when `1024 * 1024 < 10 * st_size`
(the nearest double to `0.1` lies strictly between `104857 / 2 ^ 20` and
`104858 / 2 ^ 20`, and `n / 2 ^ 20` is exact in double precision). -/
def attemptDownload (fetch : CurlCmd → Except String TransferOutcome)
    (cmd : CurlCmd) : Option String :=
  match fetch cmd with
  | Except.error _ => none
  | Except.ok o =>
    if o.returncode == 0 then
      if o.fileExists then
        if 1024 * 1024 < 10 * o.sizeBytes then some cmd.out else none
      else none
    else none

/-- The whole download loop (`src/main.py` lines 170-225): each resource
is attempted in dict order and `downloaded_files.append(filename)` runs
exactly on a validated success. -/
def downloadLoop (fetch : CurlCmd → Except String TransferOutcome)
    (cmds : List CurlCmd) : List String :=
  cmds.foldl (fun acc cmd => acc ++ (attemptDownload fetch cmd).toList) []

/-- Observable effects and result of one run of `download_zoom_recording`
after the browser phase: the timeline sidecar (if any), the `curl`
invocations issued, and the returned file list. -/
structure PipelineResult where
  timelineFileWritten : Option String
  curlInvocations : List CurlCmd
  returned : List String
deriving DecidableEq, Repr

/-- The post-capture portion of `download_zoom_recording`
(`src/main.py` lines 136-225) as a pure function of the finalized capture
list, the extracted timeline, the session cookies and a transfer oracle.
The sidecar is written exactly when `sharing_timeline` is non-empty
(lines 138-144); with an empty dedup dict the function returns `[]`
without invoking `curl` (lines 156-159); otherwise every deduplicated
resource is attempted in dict order (lines 170-225). -/
def download_zoom_recording (base outdir : String)
    (videoReqs : List CapturedRequest) (timeline : List SharingEvent)
    (cookies : List (String × String))
    (fetch : CurlCmd → Except String TransferOutcome) : PipelineResult :=
  let tl := if timeline.isEmpty then none
            else some (outdir ++ "/" ++ base ++ "_timeline.json")
  let uniq := unique_requests videoReqs
  if uniq.isEmpty then
    { timelineFileWritten := tl, curlInvocations := [], returned := [] }
  else
    let cookieStr := cookie_str cookies
    let cmds := uniq.map
      (fun p => buildCurl cookieStr (filenameFor outdir base p.1) p.1 p.2.headers)
    { timelineFileWritten := tl
      curlInvocations := cmds
      returned := downloadLoop fetch cmds }

/-- One batch row (`base_filename, url, passcode`). -/
structure Recording where
  base : String
  url : String
  passcode : String

/-- `process_batch` (`src/main.py` lines 228-257): run the per-recording
pipeline over every row in order and `all_files.extend(files)` each time;
the per-recording behaviour is abstracted as `runRec`. -/
def process_batch (runRec : Recording → List String) (recs : List Recording) :
    List String :=
  recs.foldl (fun acc rec => acc ++ runRec rec) []

/-- A transfer oracle that always succeeds with a 5 MiB file. -/
def fetchOk : CurlCmd → Except String TransferOutcome :=
  fun _ => Except.ok ⟨0, true, 5 * 1024 * 1024⟩

/-- A transfer oracle that exits 0 but leaves a 102400-byte file
(just under the 0.1 MiB floor). -/
def fetchSmall : CurlCmd → Except String TransferOutcome :=
  fun _ => Except.ok ⟨0, true, 102400⟩

/-- A transfer oracle that raises on the URL `"bad"` and succeeds with a
5 MiB file everywhere else. -/
def fetchMixed : CurlCmd → Except String TransferOutcome :=
  fun cmd => if cmd.url == "bad" then Except.error "boom"
             else Except.ok ⟨0, true, 5 * 1024 * 1024⟩

theorem hasSubL_of_isPrefixOf {pat s : List Char} (h : pat.isPrefixOf s = true) :
    hasSubL pat s = true := by
  cases s with
  | nil =>
    cases pat with
    | nil => rfl
    | cons a t => simp [List.isPrefixOf] at h
  | cons c t => simp [hasSubL, h]

theorem hasSubL_cons {pat : List Char} (c : Char) {t : List Char}
    (h : hasSubL pat t = true) : hasSubL pat (c :: t) = true := by
  simp [hasSubL, h]

theorem isPrefixOf_append (p r : List Char) : p.isPrefixOf (p ++ r) = true := by
  rw [List.isPrefixOf_iff_prefix]
  exact List.prefix_append p r

theorem stripPre_eq_append (p : List Char) :
    ∀ s r, stripPre p s = some r → s = p ++ r := by
  induction p with
  | nil =>
    intro s r h
    simp [stripPre] at h
    simp [h]
  | cons a ps ih =>
    intro s r h
    cases s with
    | nil => simp [stripPre] at h
    | cons c cs =>
      rw [stripPre] at h
      split at h
      · next hac =>
        have hac' : a = c := by simpa using hac
        simp [← hac', ih cs r h]
      · exact absurd h (by simp)

theorem dictFind_dictUpd_self {α : Type} (d : List (String × α)) (k : String) (v : α) :
    dictFind (dictUpd d k v) k = some v := by
  induction d with
  | nil => simp [dictUpd, dictFind]
  | cons p rest ih =>
    by_cases h : p.1 = k
    · simp [dictUpd, dictFind, h]
    · simp [dictUpd, dictFind, h, ih]

theorem dictFind_dictUpd_ne {α : Type} (d : List (String × α)) (k : String) (v : α)
    (k' : String) (h : k' ≠ k) : dictFind (dictUpd d k v) k' = dictFind d k' := by
  induction d with
  | nil => simp [dictUpd, dictFind, Ne.symm h]
  | cons p rest ih =>
    by_cases hp : p.1 = k
    · simp [dictUpd, dictFind, hp, Ne.symm h]
    · simp [dictUpd, dictFind, hp, ih]

theorem dictKeys_dictUpd_of_mem {α : Type} (v : α) :
    ∀ (d : List (String × α)) (k : String), k ∈ dictKeys d →
      dictKeys (dictUpd d k v) = dictKeys d := by
  intro d
  induction d with
  | nil => intro k h; simp [dictKeys] at h
  | cons p rest ih =>
    intro k h
    by_cases hp : p.1 = k
    · simp [dictUpd, dictKeys, hp]
    · have hm : k ∈ dictKeys rest := by
        rcases (by simpa [dictKeys] using h) with h1 | h1
        · exact absurd h1.symm hp
        · simpa [dictKeys] using h1
      have := ih k hm
      simp [dictUpd, dictKeys, hp] at this ⊢
      exact this

theorem dictKeys_dictUpd_of_not_mem {α : Type} (v : α) :
    ∀ (d : List (String × α)) (k : String), k ∉ dictKeys d →
      dictKeys (dictUpd d k v) = dictKeys d ++ [k] := by
  intro d
  induction d with
  | nil => intro k h; simp [dictUpd, dictKeys]
  | cons p rest ih =>
    intro k h
    have hp : ¬ p.1 = k := by
      intro hh
      exact h (by simp [dictKeys, hh])
    have hm : k ∉ dictKeys rest := by
      intro hh
      apply h
      simp [dictKeys]
      right
      simpa [dictKeys] using hh
    have := ih k hm
    simp [dictUpd, dictKeys, hp] at this ⊢
    exact this

theorem dictFind_isSome_iff {α : Type} (d : List (String × α)) (k : String) :
    (dictFind d k).isSome = true ↔ k ∈ dictKeys d := by
  induction d with
  | nil => simp [dictFind, dictKeys]
  | cons p rest ih =>
    by_cases hp : p.1 = k
    · simp [dictFind, dictKeys, hp]
    · simp [dictFind, dictKeys, hp, ih, Ne.symm hp]

theorem dictKeys_nodup_dictUpd {α : Type} {d : List (String × α)} (k : String) (v : α)
    (h : (dictKeys d).Nodup) : (dictKeys (dictUpd d k v)).Nodup := by
  by_cases hm : k ∈ dictKeys d
  · rwa [dictKeys_dictUpd_of_mem v d k hm]
  · rw [dictKeys_dictUpd_of_not_mem v d k hm]
    simp [List.nodup_append, h, List.disjoint_singleton]
    exact hm

theorem find?_congr_on {α : Type} (p q : α → Bool) :
    ∀ l : List α, (∀ x ∈ l, p x = q x) → l.find? p = l.find? q := by
  intro l
  induction l with
  | nil => intro _; rfl
  | cons a t ih =>
    intro h
    have ha := h a (List.mem_cons_self a t)
    cases hq : q a with
    | false =>
      simp [List.find?_cons, ha, hq]
      exact ih (fun x hx => h x (List.mem_cons_of_mem a hx))
    | true => simp [List.find?_cons, ha, hq]

theorem uniq_foldl_find (reqs : List CapturedRequest) :
    ∀ (d : List (String × CapturedRequest)) (k : String),
      dictFind (reqs.foldl
        (fun d req => if hasMarker req.url then dictUpd d req.url req else d) d) k
      = Option.or (reqs.reverse.find? (fun r => hasMarker r.url && r.url == k))
          (dictFind d k) := by
  induction reqs with
  | nil => intro d k; simp
  | cons r rest ih =>
    intro d k
    rw [List.foldl_cons, ih, List.reverse_cons, List.find?_append, Option.or_assoc]
    congr 1
    by_cases hm : hasMarker r.url
    · by_cases hk : r.url = k
      · subst hk
        simp [List.find?, hm, dictFind_dictUpd_self]
      · rw [if_pos hm, dictFind_dictUpd_ne d r.url r k (fun hh => hk hh.symm)]
        have hb : (r.url == k) = false := by simp [hk]
        simp [List.find?, hb]
    · simp [List.find?, hm]

theorem uniq_find (reqs : List CapturedRequest) (k : String) :
    dictFind (unique_requests reqs) k
      = reqs.reverse.find? (fun r => hasMarker r.url && r.url == k) := by
  have h := uniq_foldl_find reqs [] k
  simpa [unique_requests, dictFind] using h

theorem uniq_find_of_marker (reqs : List CapturedRequest) {k : String}
    (h : hasMarker k = true) :
    dictFind (unique_requests reqs) k
      = reqs.reverse.find? (fun r => r.url == k) := by
  rw [uniq_find]
  apply find?_congr_on
  intro r _
  by_cases hr : r.url = k
  · simp [hr, h]
  · simp [hr]

theorem uniq_mem_keys_iff (reqs : List CapturedRequest) (k : String) :
    k ∈ dictKeys (unique_requests reqs) ↔
      hasMarker k = true ∧ ∃ r ∈ reqs, r.url = k := by
  rw [← dictFind_isSome_iff, uniq_find, List.find?_isSome]
  constructor
  · rintro ⟨r, hr, hp⟩
    have h1 : hasMarker r.url = true ∧ r.url = k := by simpa using hp
    exact ⟨h1.2 ▸ h1.1, r, List.mem_reverse.mp hr, h1.2⟩
  · rintro ⟨hm, r, hr, hu⟩
    exact ⟨r, List.mem_reverse.mpr hr, by simp [hu, hm]⟩

theorem uniq_keys_nodup (reqs : List CapturedRequest) :
    (dictKeys (unique_requests reqs)).Nodup := by
  have aux : ∀ (l : List CapturedRequest) (d : List (String × CapturedRequest)),
      (dictKeys d).Nodup →
      (dictKeys (l.foldl
        (fun d req => if hasMarker req.url then dictUpd d req.url req else d) d)).Nodup := by
    intro l
    induction l with
    | nil => intro d h; simpa using h
    | cons r rest ih =>
      intro d h
      rw [List.foldl_cons]
      by_cases hm : hasMarker r.url
      · simp only [hm, if_true]
        exact ih _ (dictKeys_nodup_dictUpd _ _ h)
      · simp only [hm, Bool.false_eq_true, if_false]
        exact ih _ h
  exact aux reqs [] (by simp [dictKeys])

theorem dedupFirstAux_congr :
    ∀ (l : List String) (s1 s2 : List String), (∀ x, x ∈ s1 ↔ x ∈ s2) →
      dedupFirstAux s1 l = dedupFirstAux s2 l := by
  intro l
  induction l with
  | nil => intro s1 s2 _; rfl
  | cons u rest ih =>
    intro s1 s2 h
    by_cases hu : u ∈ s1
    · simp [dedupFirstAux, hu, (h u).mp hu]
      exact ih s1 s2 h
    · have hu2 : u ∉ s2 := fun hh => hu ((h u).mpr hh)
      simp [dedupFirstAux, hu, hu2]
      exact ih (u :: s1) (u :: s2) (by intro x; simp [h x])

theorem uniq_keys_order (reqs : List CapturedRequest) :
    dictKeys (unique_requests reqs)
      = dedupFirstAux [] ((reqs.map CapturedRequest.url).filter hasMarker) := by
  have aux : ∀ (l : List CapturedRequest) (d : List (String × CapturedRequest))
      (seen : List String), (∀ x, x ∈ seen ↔ x ∈ dictKeys d) →
      dictKeys (l.foldl
        (fun d req => if hasMarker req.url then dictUpd d req.url req else d) d)
        = dictKeys d ++ dedupFirstAux seen ((l.map CapturedRequest.url).filter hasMarker) := by
    intro l
    induction l with
    | nil => intro d seen _; simp [dedupFirstAux]
    | cons r rest ih =>
      intro d seen hs
      rw [List.foldl_cons, List.map_cons, List.filter_cons]
      by_cases hm : hasMarker r.url
      · simp only [hm, if_true]
        by_cases hd : r.url ∈ dictKeys d
        · have hseen : r.url ∈ seen := (hs r.url).mpr hd
          rw [ih (dictUpd d r.url r) seen
            (by rw [dictKeys_dictUpd_of_mem r d r.url hd]; exact hs)]
          rw [dictKeys_dictUpd_of_mem r d r.url hd]
          simp [dedupFirstAux, hseen]
        · have hseen : r.url ∉ seen := fun hh => hd ((hs r.url).mp hh)
          rw [ih (dictUpd d r.url r) (r.url :: seen)
            (by
              intro x
              rw [dictKeys_dictUpd_of_not_mem r d r.url hd]
              simp [List.mem_cons, hs x, List.mem_append, or_comm])]
          rw [dictKeys_dictUpd_of_not_mem r d r.url hd]
          simp [dedupFirstAux, hseen, List.append_assoc]
      · simp only [hm, Bool.false_eq_true, if_false]
        exact ih d seen hs
  have h := aux reqs [] [] (by simp [dictKeys])
  simpa [unique_requests] using h

theorem foldl_opt_append {α β : Type} (f : α → Option β) :
    ∀ (l : List α) (acc : List β),
      l.foldl (fun acc x => acc ++ (f x).toList) acc = acc ++ l.filterMap f := by
  intro l
  induction l with
  | nil => intro acc; simp
  | cons x t ih =>
    intro acc
    rw [List.foldl_cons, List.filterMap_cons]
    cases hf : f x with
    | none => simp only [hf, Option.toList_none, List.append_nil]; rw [ih]
    | some b => simp only [hf, Option.toList_some]; rw [ih]; simp

theorem downloadLoop_eq_filterMap (fetch : CurlCmd → Except String TransferOutcome)
    (cmds : List CurlCmd) :
    downloadLoop fetch cmds = cmds.filterMap (attemptDownload fetch) := by
  have h := foldl_opt_append (attemptDownload fetch) cmds []
  simpa [downloadLoop] using h

theorem video_requests_eq (outbound : List CapturedRequest) :
    video_requests outbound = outbound.filter (fun r => capturePred r.url) := by
  have aux : ∀ (l : List CapturedRequest) (acc : List CapturedRequest),
      l.foldl
        (fun acc r => if capturePred r.url then acc ++ [⟨r.url, r.headers⟩] else acc) acc
        = acc ++ l.filter (fun r => capturePred r.url) := by
    intro l
    induction l with
    | nil => intro acc; simp
    | cons r t ih =>
      intro acc
      rw [List.foldl_cons, List.filter_cons]
      have heta : (⟨r.url, r.headers⟩ : CapturedRequest) = r := rfl
      by_cases hc : capturePred r.url
      · simp only [hc, if_true, heta]
        rw [ih]
        simp
      · simp only [hc, Bool.false_eq_true, if_false]
        exact ih acc
  simpa [video_requests] using aux outbound []

theorem process_batch_eq_flatten (runRec : Recording → List String)
    (recs : List Recording) :
    process_batch runRec recs = (recs.map runRec).flatten := by
  have aux : ∀ (l : List Recording) (acc : List String),
      l.foldl (fun acc rec => acc ++ runRec rec) acc
        = acc ++ (l.map runRec).flatten := by
    intro l
    induction l with
    | nil => intro acc; simp
    | cons r t ih => intro acc; simp [ih, List.append_assoc]
  simpa [process_batch] using aux recs []

theorem attemptDownload_eq_some_iff (fetch : CurlCmd → Except String TransferOutcome)
    (cmd : CurlCmd) (f : String) :
    attemptDownload fetch cmd = some f ↔
      cmd.out = f ∧ ∃ o, fetch cmd = Except.ok o ∧ o.returncode = 0 ∧
        o.fileExists = true ∧ 1024 * 1024 < 10 * o.sizeBytes := by
  cases hf : fetch cmd with
  | error e => simp [attemptDownload, hf]
  | ok o =>
    have hL : attemptDownload fetch cmd =
        (if o.returncode == 0 then
          if o.fileExists then
            if 1024 * 1024 < 10 * o.sizeBytes then some cmd.out else none
          else none
        else none) := by
      unfold attemptDownload
      rw [hf]
    have hR : ∀ (P : TransferOutcome → Prop),
        (∃ x, (Except.ok o : Except String TransferOutcome) = Except.ok x ∧ P x)
          ↔ P o := by
      intro P
      constructor
      · rintro ⟨x, hx, hp⟩
        injection hx with hxo
        exact hxo ▸ hp
      · intro hp
        exact ⟨o, rfl, hp⟩
    rw [hL, hR (fun x => x.returncode = 0 ∧ x.fileExists = true ∧
      1024 * 1024 < 10 * x.sizeBytes)]
    by_cases h1 : o.returncode = 0
    · by_cases h2 : o.fileExists = true
      · by_cases h3 : 1024 * 1024 < 10 * o.sizeBytes
        · simp [h1, h2, h3]
        · simp [h1, h2, h3]
      · simp [h1, h2]
    · simp [h1]

theorem matchTimes_action (a : String) (r : List Char)
    (t : String × Nat × Nat × Nat) (h : matchTimes a r = some t) : t.1 = a := by
  unfold matchTimes at h
  iterate 8 (all_goals try split at h)
  all_goals
    first
    | (cases h; rfl)
    | (exact absurd h (by simp))

theorem matchSharingAt_some (s : List Char) (t : String × Nat × Nat × Nat)
    (h : matchSharingAt s = some t) :
    (t.1 = "Sharing Started" ∨ t.1 = "Sharing Stopped")
      ∧ t.1.data.isPrefixOf s = true := by
  unfold matchSharingAt at h
  split at h
  · exact absurd h (by simp)
  · next r1 heq1 =>
    have hs1 : s = "Sharing ".data ++ r1 := stripPre_eq_append _ _ _ heq1
    split at h
    · next r2 heq2 =>
      have hr1 : r1 = "Started".data ++ r2 := stripPre_eq_append _ _ _ heq2
      have ha := matchTimes_action _ _ _ h
      have hsplit : s = "Sharing Started".data ++ r2 := by
        rw [hs1, hr1, ← List.append_assoc]
        rfl
      refine ⟨Or.inl ha, ?_⟩
      rw [ha, hsplit]
      exact isPrefixOf_append _ _
    · split at h
      · next r2 heq2 =>
        have hr1 : r1 = "Stopped".data ++ r2 := stripPre_eq_append _ _ _ heq2
        have ha := matchTimes_action _ _ _ h
        have hsplit : s = "Sharing Stopped".data ++ r2 := by
          rw [hs1, hr1, ← List.append_assoc]
          rfl
        refine ⟨Or.inr ha, ?_⟩
        rw [ha, hsplit]
        exact isPrefixOf_append _ _
      · exact absurd h (by simp)

theorem searchSharing_some (s : List Char) (t : String × Nat × Nat × Nat)
    (h : searchSharing s = some t) :
    (t.1 = "Sharing Started" ∨ t.1 = "Sharing Stopped")
      ∧ hasSubL t.1.data s = true := by
  induction s with
  | nil =>
    rw [searchSharing] at h
    exact absurd ((show matchSharingAt [] = none from rfl) ▸ h) (by simp)
  | cons c tl ih =>
    rw [searchSharing] at h
    split at h
    · next r heq =>
      cases h
      obtain ⟨h1, h2⟩ := matchSharingAt_some _ _ heq
      exact ⟨h1, hasSubL_of_isPrefixOf h2⟩
    · obtain ⟨h1, h2⟩ := ih h
      exact ⟨h1, hasSubL_cons c h2⟩

theorem dictFind_of_mem_nodup {α : Type} {d : List (String × α)} {p : String × α}
    (hn : (dictKeys d).Nodup) (hm : p ∈ d) : dictFind d p.1 = some p.2 := by
  induction d with
  | nil => simp at hm
  | cons q rest ih =>
    have hn' : q.1 ∉ dictKeys rest ∧ (dictKeys rest).Nodup := by
      rw [show dictKeys (q :: rest) = q.1 :: dictKeys rest from rfl,
        List.nodup_cons] at hn
      exact hn
    rcases List.mem_cons.mp hm with rfl | hm
    · simp [dictFind]
    · have hq : ¬ q.1 = p.1 := by
        intro hh
        exact hn'.1 (hh ▸ List.mem_map_of_mem Prod.fst hm)
      simp [dictFind, hq]
      exact ih hn'.2 hm

theorem buildCurl_url (c f u : String) (hs : List (String × String)) :
    (buildCurl c f u hs).url = u := rfl

theorem buildCurl_out (c f u : String) (hs : List (String × String)) :
    (buildCurl c f u hs).out = f := rfl

theorem face_ne_unknown (r : String) : "_face_" ++ r ≠ "_unknown" := by
  intro h
  have h2 := congrArg (fun l => l.get? 1) (congrArg String.data h)
  have h3 : some 'f' = some 'u' := h2
  exact absurd h3 (by decide)

theorem screen_ne_unknown (r : String) : "_screen_" ++ r ≠ "_unknown" := by
  intro h
  have h2 := congrArg (fun l => l.get? 1) (congrArg String.data h)
  have h3 : some 's' = some 'u' := h2
  exact absurd h3 (by decide)

/-- C1: deduplication produces exactly one entry per distinct qualifying
URL (the key is the full observed URL): the key list of `unique_requests`
has no duplicates and contains `k` exactly when some captured request has
marker-bearing URL `k`; the stored entry for a qualifying URL is the last
captured request with that URL in observation order (the first hit when
searching the reversed list); and iteration visits keys in the order each
surviving URL was first inserted (first-occurrence dedup of the
qualifying URLs). -/
theorem c1_dedup_last_wins_first_insertion_order (reqs : List CapturedRequest) :
    (dictKeys (unique_requests reqs)).Nodup
    ∧ (∀ k, k ∈ dictKeys (unique_requests reqs) ↔
        hasMarker k = true ∧ ∃ r ∈ reqs, r.url = k)
    ∧ (∀ k, hasMarker k = true →
        dictFind (unique_requests reqs) k
          = reqs.reverse.find? (fun r => r.url == k))
    ∧ dictKeys (unique_requests reqs)
        = dedupFirstAux [] ((reqs.map CapturedRequest.url).filter hasMarker) :=
  ⟨uniq_keys_nodup reqs, uniq_mem_keys_iff reqs,
    fun _ h => uniq_find_of_marker reqs h, uniq_keys_order reqs⟩

/-- C1 witness: two captures of the same URL; the dedup dict stores the
later one's headers. -/
theorem c1_witness :
    dictFind (unique_requests
      [⟨"https://ssrweb.zoom.us/v_avo_640x360.mp4?s=1", [("user-agent", "UA1")]⟩,
       ⟨"https://ssrweb.zoom.us/v_avo_640x360.mp4?s=1", [("user-agent", "UA2")]⟩])
      "https://ssrweb.zoom.us/v_avo_640x360.mp4?s=1"
      = some ⟨"https://ssrweb.zoom.us/v_avo_640x360.mp4?s=1",
          [("user-agent", "UA2")]⟩ := by
  rw [(c1_dedup_last_wins_first_insertion_order
    [⟨"https://ssrweb.zoom.us/v_avo_640x360.mp4?s=1", [("user-agent", "UA1")]⟩,
     ⟨"https://ssrweb.zoom.us/v_avo_640x360.mp4?s=1", [("user-agent", "UA2")]⟩]).2.2.1
    "https://ssrweb.zoom.us/v_avo_640x360.mp4?s=1" (by decide)]
  decide

/-- C2 counterexample: the claim says a request is retained only if its
URL ends with ".mp4", but `handle_request` tests containment
(`".mp4" in request.url`): a signed URL with a query string after the
extension is captured although it does not end with ".mp4". -/
theorem c2_counterexample :
    video_requests [⟨"https://ssrweb.zoom.us/play/v_as_640x360.mp4?sig=1", []⟩]
        = [⟨"https://ssrweb.zoom.us/play/v_as_640x360.mp4?sig=1", []⟩]
      ∧ strEndsWith "https://ssrweb.zoom.us/play/v_as_640x360.mp4?sig=1" ".mp4"
          = false := by
  decide

/-- C2 (amended): an outbound request is retained as a CapturedRequest
if and only if its URL contains "ssrweb.zoom.us" and contains ".mp4"
(anywhere, not necessarily as a suffix); every request failing this
predicate is never appended to the capture accumulator. -/
theorem c2_retention (outbound : List CapturedRequest) (r : CapturedRequest) :
    r ∈ video_requests outbound ↔
      r ∈ outbound ∧ strHasSub r.url "ssrweb.zoom.us" = true
        ∧ strHasSub r.url ".mp4" = true := by
  rw [video_requests_eq, List.mem_filter]
  simp [capturePred, Bool.and_eq_true, and_assoc]

/-- C2 witness: a streaming-host mp4 request is retained. -/
theorem c2_witness :
    (⟨"https://ssrweb.zoom.us/play/v_as_640x360.mp4?sig=2", []⟩ : CapturedRequest)
      ∈ video_requests
        [⟨"https://ssrweb.zoom.us/play/v_as_640x360.mp4?sig=2", []⟩,
         ⟨"https://example.com/style.css", []⟩] :=
  (c2_retention _ _).mpr ⟨by decide, by decide, by decide⟩

/-- C3: a filepath is appended to the returned list exactly when its
transfer returned exit status 0 AND the destination file exists AND its
size is strictly over 0.1 MiB (`1024 * 1024 < 10 * sizeBytes`, exactly
the integer threshold of the code's floating-point
`st_size / (1024 * 1024) > 0.1`); a transfer whose file is 0.1 MiB or
smaller contributes nothing even with exit status 0 and the file on
disk; and the byte threshold agrees with the exact rational comparison
against 0.1 MiB. -/
theorem c3_download_validation (fetch : CurlCmd → Except String TransferOutcome)
    (cmds : List CurlCmd) :
    (∀ f, f ∈ downloadLoop fetch cmds ↔
      ∃ cmd ∈ cmds, cmd.out = f ∧ ∃ o, fetch cmd = Except.ok o ∧
        o.returncode = 0 ∧ o.fileExists = true ∧ 1024 * 1024 < 10 * o.sizeBytes)
    ∧ (∀ cmd o, fetch cmd = Except.ok o → o.fileExists = true →
        10 * o.sizeBytes ≤ 1024 * 1024 → attemptDownload fetch cmd = none)
    ∧ (∀ sz : ℕ,
        ((1 : ℚ) / 10 < (sz : ℚ) / (1024 * 1024) ↔ 1024 * 1024 < 10 * sz)) := by
  refine ⟨?_, ?_, ?_⟩
  · intro f
    rw [downloadLoop_eq_filterMap, List.mem_filterMap]
    constructor
    · rintro ⟨cmd, hc, ha⟩
      exact ⟨cmd, hc, (attemptDownload_eq_some_iff fetch cmd f).mp ha⟩
    · rintro ⟨cmd, hc, hrest⟩
      exact ⟨cmd, hc, (attemptDownload_eq_some_iff fetch cmd f).mpr hrest⟩
  · intro cmd o hf hex hsz
    unfold attemptDownload
    rw [hf]
    by_cases h1 : o.returncode == 0
    · simp [h1, hex, Nat.not_lt.mpr hsz]
    · simp [h1]
  · intro sz
    rw [div_lt_div_iff₀ (by norm_num) (by norm_num)]
    constructor
    · intro h
      have h2 : (1024 * 1024 : ℚ) < 10 * (sz : ℚ) := by linarith
      exact_mod_cast h2
    · intro h
      have h2 : (1024 * 1024 : ℚ) < 10 * (sz : ℚ) := by exact_mod_cast h
      linarith

/-- C3 witness: exit status 0 and an existing 102400-byte file (under the
0.1 MiB floor) is reported as failed. -/
theorem c3_witness :
    attemptDownload fetchSmall (buildCurl "" "out.mp4" "u" []) = none :=
  (c3_download_validation fetchSmall []).2.1 (buildCurl "" "out.mp4" "u" [])
    ⟨0, true, 102400⟩ rfl rfl (by norm_num)

/-- C4 counterexample: the claim asserts every surviving URL containing
"_as_" is classified Screen with the `_as_(\d+x\d+)\.mp4` token, but the
code's `if "_avo_" in url / elif "_as_" in url` chain gives `_avo_`
precedence: this URL survives filtering, contains "_as_" with a matching
`_as_640x360.mp4` token, yet is classified Face with resolution
"unknown" (the `_avo_` regex does not match), so it is written to the
`_face_unknown` destination, not `_screen_640x360`. -/
theorem c4_counterexample :
    "https://ssrweb.zoom.us/v_avo_1_as_640x360.mp4?x=1"
        ∈ dictKeys (unique_requests
            [⟨"https://ssrweb.zoom.us/v_avo_1_as_640x360.mp4?x=1", []⟩])
      ∧ strHasSub "https://ssrweb.zoom.us/v_avo_1_as_640x360.mp4?x=1" "_as_" = true
      ∧ searchResToken "_as_".data
          "https://ssrweb.zoom.us/v_avo_1_as_640x360.mp4?x=1".data
          = some "640x360".data
      ∧ computeSuffix "https://ssrweb.zoom.us/v_avo_1_as_640x360.mp4?x=1"
          = "_face_unknown" := by
  decide

/-- C4 (amended): a captured request survives filtering only if its URL
contains "_avo_" or "_as_"; URLs with neither marker never enter the
dedup dict.  A surviving URL containing "_avo_" is classified Face with
the `_avo_(\d+x\d+)\.mp4` token ("unknown" when it does not match); a
surviving URL containing "_as_" but NOT "_avo_" is classified Screen
with the `_as_(\d+x\d+)\.mp4` token ("unknown" when it does not match);
the destination is `{outdir}/{base}{suffix}.mp4`. -/
theorem c4_marker_classification :
    (∀ (reqs : List CapturedRequest) (url : String),
      strHasSub url "_avo_" = false → strHasSub url "_as_" = false →
        url ∉ dictKeys (unique_requests reqs))
    ∧ (∀ (reqs : List CapturedRequest) (url : String),
        url ∈ dictKeys (unique_requests reqs) →
          strHasSub url "_avo_" = true ∨ strHasSub url "_as_" = true)
    ∧ (∀ url, strHasSub url "_avo_" = true →
        computeSuffix url = "_face_" ++ resolutionFor "_avo_" url)
    ∧ (∀ url, strHasSub url "_avo_" = false → strHasSub url "_as_" = true →
        computeSuffix url = "_screen_" ++ resolutionFor "_as_" url)
    ∧ (∀ outdir base url, filenameFor outdir base url
        = outdir ++ "/" ++ base ++ computeSuffix url ++ ".mp4") := by
  refine ⟨?_, ?_, ?_, ?_, ?_⟩
  · intro reqs url h1 h2 hmem
    have hm := ((uniq_mem_keys_iff reqs url).mp hmem).1
    simp [hasMarker, h1, h2] at hm
  · intro reqs url hmem
    have hm := ((uniq_mem_keys_iff reqs url).mp hmem).1
    simpa [hasMarker, Bool.or_eq_true] using hm
  · intro url h
    simp [computeSuffix, h]
  · intro url h1 h2
    simp [computeSuffix, h1, h2]
  · intro outdir base url
    rfl

/-- C4 witness: an `_as_`-only URL is classified Screen with its token. -/
theorem c4_witness :
    computeSuffix "https://ssrweb.zoom.us/v_as_1920x1080.mp4?x=1"
      = "_screen_"
          ++ resolutionFor "_as_" "https://ssrweb.zoom.us/v_as_1920x1080.mp4?x=1" :=
  c4_marker_classification.2.2.2.1 _ (by decide) (by decide)

/-- C5: a marker label yields an event exactly when the timeline regex
matches it (search semantics): on a match with hours `hh`, minutes `mm`,
seconds `ss`, the event carries `seconds = hh * 3600 + mm * 60 + ss` and
`time` zero-padded `HH:MM:SS`; the documented example parses as stated;
a non-matching label yields no event; events appear in document order
(`filterMap` over the labels); and no markers give the empty list,
never null. -/
theorem c5_timeline_parsing :
    (∀ (label a : String) (hh mm ss : Nat),
      searchSharing label.data = some (a, hh, mm, ss) →
        parseSharingLabel label = some
          ⟨a, padTwo hh ++ ":" ++ padTwo mm ++ ":" ++ padTwo ss,
            hh * 3600 + mm * 60 + ss⟩)
    ∧ (∀ label : String, searchSharing label.data = none →
        parseSharingLabel label = none)
    ∧ parseSharingLabel "Sharing Started,0 hours 4 minutes 13 seconds"
        = some ⟨"Sharing Started", "00:04:13", 253⟩
    ∧ parseSharingLabel "Recording highlights" = none
    ∧ (∀ labels : List String,
        sharing_timeline labels = labels.filterMap parseSharingLabel)
    ∧ sharing_timeline [] = [] := by
  refine ⟨?_, ?_, by decide, by decide, fun _ => rfl, rfl⟩
  · intro label a hh mm ss h
    obtain ⟨h1, h2⟩ := searchSharing_some _ _ h
    have hinc : (strHasSub label "Sharing Started"
        || strHasSub label "Sharing Stopped") = true := by
      rcases h1 with h1 | h1
      · rw [h1] at h2
        simp [strHasSub, h2]
      · rw [h1] at h2
        simp [strHasSub, h2]
    unfold parseSharingLabel
    rw [if_pos hinc, h]
    rfl
  · intro label h
    unfold parseSharingLabel
    by_cases hc : (strHasSub label "Sharing Started"
        || strHasSub label "Sharing Stopped") = true
    · rw [if_pos hc, h]
      rfl
    · rw [if_neg hc]

/-- C5 witness: a label with surrounding text still parses via the
search semantics, with padded time and total seconds. -/
theorem c5_witness :
    parseSharingLabel "** Sharing Stopped,1 hours 2 minutes 3 seconds **"
      = some ⟨"Sharing Stopped", "01:02:03", 3723⟩ := by
  rw [c5_timeline_parsing.1 "** Sharing Stopped,1 hours 2 minutes 3 seconds **"
    "Sharing Stopped" 1 2 3 (by decide)]
  decide

/-- C6: failures are contained at the smallest unit.  In batch mode the
aggregate is the concatenation of every recording's file list, so a
recording yielding `[]` (or anything else) never changes what its
siblings contribute, and every recording after a failing one is still
processed; at file level, a transfer that raises an exception is caught
and contributes nothing, the remaining resources being attempted exactly
as if it were absent. -/
theorem c6_failure_containment :
    (∀ (runRec : Recording → List String) (recs : List Recording),
      process_batch runRec recs = (recs.map runRec).flatten)
    ∧ (∀ (runRec : Recording → List String) (pre : List Recording)
        (rec : Recording) (post : List Recording),
        process_batch runRec (pre ++ rec :: post)
          = process_batch runRec pre ++ runRec rec ++ process_batch runRec post)
    ∧ (∀ (fetch : CurlCmd → Except String TransferOutcome) (cmds1 : List CurlCmd)
        (cmd : CurlCmd) (cmds2 : List CurlCmd) (msg : String),
        fetch cmd = Except.error msg →
          downloadLoop fetch (cmds1 ++ cmd :: cmds2)
            = downloadLoop fetch (cmds1 ++ cmds2)) := by
  refine ⟨process_batch_eq_flatten, ?_, ?_⟩
  · intro runRec pre rec post
    simp [process_batch_eq_flatten, List.append_assoc]
  · intro fetch cmds1 cmd cmds2 msg h
    have ha : attemptDownload fetch cmd = none := by
      unfold attemptDownload
      rw [h]
    simp [downloadLoop_eq_filterMap, List.filterMap_append, List.filterMap_cons, ha]

/-- C6 witness: a raising transfer in the middle of the loop leaves the
other two files' processing unchanged. -/
theorem c6_witness :
    downloadLoop fetchMixed
        ([buildCurl "" "a.mp4" "u1" []]
          ++ buildCurl "" "b.mp4" "bad" [] :: [buildCurl "" "c.mp4" "u2" []])
      = downloadLoop fetchMixed
          ([buildCurl "" "a.mp4" "u1" []] ++ [buildCurl "" "c.mp4" "u2" []]) :=
  c6_failure_containment.2.2 fetchMixed [buildCurl "" "a.mp4" "u1" []]
    (buildCurl "" "b.mp4" "bad" []) [buildCurl "" "c.mp4" "u2" []] "boom" rfl

/-- C7: with zero captured requests `download_zoom_recording` returns
normally (it is a total function here) with an empty file list and
issues no curl invocation; and, for any capture list, the timeline
sidecar is written exactly when the extracted event sequence is
non-empty. -/
theorem c7_empty_capture :
    (∀ (base outdir : String) (timeline : List SharingEvent)
        (cookies : List (String × String))
        (fetch : CurlCmd → Except String TransferOutcome),
      (download_zoom_recording base outdir [] timeline cookies fetch).returned = []
      ∧ (download_zoom_recording base outdir [] timeline cookies
          fetch).curlInvocations = [])
    ∧ (∀ (base outdir : String) (videoReqs : List CapturedRequest)
        (timeline : List SharingEvent) (cookies : List (String × String))
        (fetch : CurlCmd → Except String TransferOutcome),
        (download_zoom_recording base outdir videoReqs timeline cookies
            fetch).timelineFileWritten
          = if timeline.isEmpty then none
            else some (outdir ++ "/" ++ base ++ "_timeline.json")) := by
  constructor
  · intro base outdir timeline cookies fetch
    exact ⟨rfl, rfl⟩
  · intro base outdir videoReqs timeline cookies fetch
    by_cases h : (unique_requests videoReqs).isEmpty
    · simp [download_zoom_recording, h]
    · simp [download_zoom_recording, h]

/-- C8: every curl invocation issued by the pipeline is built from the
deduplicated entry for its URL: Accept, Accept-Language, Referer and
User-Agent come from the captured request's headers with the literal
fallbacks "*/*", "ja-JP", "https://us06web.zoom.us/" and "" when a
header is absent, and the cookie string joins every session cookie as
name=value pairs separated by "; "; `headerGetD` itself returns the
stored value when the header is present and the default when not. -/
theorem c8_replay_headers :
    (∀ (base outdir : String) (videoReqs : List CapturedRequest)
        (timeline : List SharingEvent) (cookies : List (String × String))
        (fetch : CurlCmd → Except String TransferOutcome) (cmd : CurlCmd),
      cmd ∈ (download_zoom_recording base outdir videoReqs timeline cookies
          fetch).curlInvocations →
        ∃ req, dictFind (unique_requests videoReqs) cmd.url = some req
          ∧ cmd.accept = headerGetD req.headers "accept" "*/*"
          ∧ cmd.acceptLanguage = headerGetD req.headers "accept-language" "ja-JP"
          ∧ cmd.referer = headerGetD req.headers "referer" "https://us06web.zoom.us/"
          ∧ cmd.userAgent = headerGetD req.headers "user-agent" ""
          ∧ cmd.cookie = cookie_str cookies)
    ∧ (∀ (hs : List (String × String)) (k d : String),
        dictFind hs k = none → headerGetD hs k d = d)
    ∧ (∀ (hs : List (String × String)) (k d v : String),
        dictFind hs k = some v → headerGetD hs k d = v) := by
  refine ⟨?_, ?_, ?_⟩
  · intro base outdir videoReqs timeline cookies fetch cmd hmem
    by_cases h : (unique_requests videoReqs).isEmpty
    · simp [download_zoom_recording, h] at hmem
    · have hmem' : cmd ∈ (unique_requests videoReqs).map
          (fun p => buildCurl (cookie_str cookies) (filenameFor outdir base p.1)
            p.1 p.2.headers) := by
        simpa [download_zoom_recording, h] using hmem
      obtain ⟨p, hp, rfl⟩ := List.mem_map.mp hmem'
      exact ⟨p.2, dictFind_of_mem_nodup (uniq_keys_nodup videoReqs) hp,
        rfl, rfl, rfl, rfl, rfl⟩
  · intro hs k d h
    unfold headerGetD
    rw [h]
  · intro hs k d v h
    unfold headerGetD
    rw [h]

/-- C8 witness: a present header is replayed, an absent one falls back
to its literal default. -/
theorem c8_witness :
    headerGetD [("accept", "video/mp4")] "accept" "*/*" = "video/mp4"
      ∧ headerGetD [] "referer" "https://us06web.zoom.us/"
          = "https://us06web.zoom.us/" :=
  ⟨c8_replay_headers.2.2 [("accept", "video/mp4")] "accept" "*/*" "video/mp4"
      (by decide),
   c8_replay_headers.2.1 [] "referer" "https://us06web.zoom.us/" rfl⟩

/-- C9: the `_unknown` fallback branch is unreachable from the pipeline:
every curl invocation targets a URL bearing "_avo_" or "_as_", its
computed suffix is never "_unknown", and its destination carries a
"_face_" or "_screen_" suffix; every returned filepath is the
destination of some invocation. -/
theorem c9_no_unknown_destination (base outdir : String)
    (videoReqs : List CapturedRequest) (timeline : List SharingEvent)
    (cookies : List (String × String))
    (fetch : CurlCmd → Except String TransferOutcome) :
    (∀ cmd ∈ (download_zoom_recording base outdir videoReqs timeline cookies
        fetch).curlInvocations,
      (strHasSub cmd.url "_avo_" = true ∨ strHasSub cmd.url "_as_" = true)
      ∧ computeSuffix cmd.url ≠ "_unknown"
      ∧ (cmd.out = outdir ++ "/" ++ base
            ++ ("_face_" ++ resolutionFor "_avo_" cmd.url) ++ ".mp4"
        ∨ cmd.out = outdir ++ "/" ++ base
            ++ ("_screen_" ++ resolutionFor "_as_" cmd.url) ++ ".mp4"))
    ∧ (∀ f ∈ (download_zoom_recording base outdir videoReqs timeline cookies
        fetch).returned,
        f ∈ ((download_zoom_recording base outdir videoReqs timeline cookies
          fetch).curlInvocations.map CurlCmd.out)) := by
  constructor
  · intro cmd hmem
    by_cases h : (unique_requests videoReqs).isEmpty
    · simp [download_zoom_recording, h] at hmem
    · have hmem' : cmd ∈ (unique_requests videoReqs).map
          (fun p => buildCurl (cookie_str cookies) (filenameFor outdir base p.1)
            p.1 p.2.headers) := by
        simpa [download_zoom_recording, h] using hmem
      obtain ⟨p, hp, rfl⟩ := List.mem_map.mp hmem'
      have hkey : p.1 ∈ dictKeys (unique_requests videoReqs) :=
        List.mem_map_of_mem Prod.fst hp
      have hmark : strHasSub p.1 "_avo_" = true ∨ strHasSub p.1 "_as_" = true := by
        simpa [hasMarker, Bool.or_eq_true] using
          ((uniq_mem_keys_iff videoReqs p.1).mp hkey).1
      simp only [buildCurl_url, buildCurl_out]
      refine ⟨hmark, ?_, ?_⟩
      · cases hb : strHasSub p.1 "_avo_" with
        | true =>
          rw [show computeSuffix p.1 = "_face_" ++ resolutionFor "_avo_" p.1 from
            by simp [computeSuffix, hb]]
          exact face_ne_unknown _
        | false =>
          have h1 : strHasSub p.1 "_as_" = true := by
            rcases hmark with hm | hm
            · rw [hb] at hm
              exact absurd hm (by simp)
            · exact hm
          rw [show computeSuffix p.1 = "_screen_" ++ resolutionFor "_as_" p.1 from
            by simp [computeSuffix, hb, h1]]
          exact screen_ne_unknown _
      · cases hb : strHasSub p.1 "_avo_" with
        | true =>
          left
          rw [filenameFor, show computeSuffix p.1
            = "_face_" ++ resolutionFor "_avo_" p.1 from by simp [computeSuffix, hb]]
        | false =>
          have h1 : strHasSub p.1 "_as_" = true := by
            rcases hmark with hm | hm
            · rw [hb] at hm
              exact absurd hm (by simp)
            · exact hm
          right
          rw [filenameFor, show computeSuffix p.1
            = "_screen_" ++ resolutionFor "_as_" p.1 from
            by simp [computeSuffix, hb, h1]]
  · intro f hf
    by_cases h : (unique_requests videoReqs).isEmpty
    · simp [download_zoom_recording, h] at hf
    · have hf' : f ∈ downloadLoop fetch ((unique_requests videoReqs).map
          (fun p => buildCurl (cookie_str cookies) (filenameFor outdir base p.1)
            p.1 p.2.headers)) := by
        simpa [download_zoom_recording, h] using hf
      rw [downloadLoop_eq_filterMap] at hf'
      obtain ⟨cmd, hc, ha⟩ := List.mem_filterMap.mp hf'
      have hout : cmd.out = f := ((attemptDownload_eq_some_iff _ cmd f).mp ha).1
      simp only [download_zoom_recording, h]
      simp only [Bool.false_eq_true, if_false]
      exact List.mem_map.mpr ⟨cmd, hc, hout⟩

/-- C9 witness: a concrete pipeline invocation's destination suffix is
not the `_unknown` fallback. -/
theorem c9_witness :
    computeSuffix (buildCurl (cookie_str [])
      (filenameFor "./downloads" "rec" "https://ssrweb.zoom.us/rec_as_640x360.mp4?s=1")
      "https://ssrweb.zoom.us/rec_as_640x360.mp4?s=1" []).url ≠ "_unknown" :=
  ((c9_no_unknown_destination "rec" "./downloads"
      [⟨"https://ssrweb.zoom.us/rec_as_640x360.mp4?s=1", []⟩] [] [] fetchOk).1
    (buildCurl (cookie_str [])
      (filenameFor "./downloads" "rec" "https://ssrweb.zoom.us/rec_as_640x360.mp4?s=1")
      "https://ssrweb.zoom.us/rec_as_640x360.mp4?s=1" [])
    (by decide)).2.1

/-- C10: two distinct signed URLs for the same logical resource (same
marker class and resolution token) collide on the destination filepath:
both survive deduplication as separate keys, both curl invocations write
to the same path in order (the later transfer overwriting the earlier
file), and with both transfers validating, the returned list contains
that same filepath twice. -/
theorem c10_filename_collision :
    "https://ssrweb.zoom.us/rec_avo_1280x720.mp4?sig=1"
        ≠ "https://ssrweb.zoom.us/rec_avo_1280x720.mp4?sig=2"
    ∧ dictKeys (unique_requests
        [⟨"https://ssrweb.zoom.us/rec_avo_1280x720.mp4?sig=1", []⟩,
         ⟨"https://ssrweb.zoom.us/rec_avo_1280x720.mp4?sig=2", []⟩])
        = ["https://ssrweb.zoom.us/rec_avo_1280x720.mp4?sig=1",
           "https://ssrweb.zoom.us/rec_avo_1280x720.mp4?sig=2"]
    ∧ ((download_zoom_recording "rec" "./downloads"
        [⟨"https://ssrweb.zoom.us/rec_avo_1280x720.mp4?sig=1", []⟩,
         ⟨"https://ssrweb.zoom.us/rec_avo_1280x720.mp4?sig=2", []⟩] [] []
        fetchOk).curlInvocations.map CurlCmd.out)
        = ["./downloads/rec_face_1280x720.mp4", "./downloads/rec_face_1280x720.mp4"]
    ∧ (download_zoom_recording "rec" "./downloads"
        [⟨"https://ssrweb.zoom.us/rec_avo_1280x720.mp4?sig=1", []⟩,
         ⟨"https://ssrweb.zoom.us/rec_avo_1280x720.mp4?sig=2", []⟩] [] []
        fetchOk).returned
        = ["./downloads/rec_face_1280x720.mp4",
           "./downloads/rec_face_1280x720.mp4"] := by
  decide

end Zoom

